import Mathlib

/-!
Verification of the password-generator component of the repository
(`Project/password-generator/src/main.rs`).

The Rust program consists of a core function `generate_password` that maps
each position in `0..password_length` to a character drawn by
`rand::thread_rng().gen_range(b'A'..b'Z') as char`, and a CLI `main` that
reads an optional length argument (defaulting to `"12"` when absent, and to
`12` when the argument does not parse as a `usize`), calls the core, and
prints the result followed by a newline.

The random source is modelled as a stream `rng : Nat → Nat` of raw draws,
one per position; `gen_range lo hi` turns a raw draw into a uniformly
distributed value of the half-open interval `[lo, hi)` by reduction modulo
the interval's width.  The variant `gen_range?` additionally models the
panic of rand's `gen_range` on an empty interval by returning `none`.
-/

/-- Width-reduction of one raw draw of the random stream onto the half-open
interval `[lo, hi)`: this models `rand`'s `gen_range(lo..hi)`, which returns
a uniformly distributed value in `[lo, hi)`. -/
def gen_range (lo hi raw : Nat) : Nat := lo + raw % (hi - lo)

/-- Panic-aware model of `rand`'s `gen_range(lo..hi)`: `gen_range` panics
(modelled as `none`) exactly when the interval `lo..hi` is empty. -/
def gen_range? (lo hi raw : Nat) : Option Nat :=
  if lo < hi then some (gen_range lo hi raw) else none

/-- Model of `generate_password` from `main.rs`:
`(0..password_length).map(|_| rand::thread_rng().gen_range(b'A'..b'Z') as char).collect()`.
`b'A' = 65` and `b'Z' = 90`; position `i` consumes draw `rng i`. -/
def generate_password (password_length : Nat) (rng : Nat → Nat) : String :=
  ⟨(List.range password_length).map fun i => Char.ofNat (gen_range 65 90 (rng i))⟩

/-- Panic-aware model of `generate_password`: each per-position draw is the
panic-aware `gen_range?`, and a panic anywhere aborts the whole computation. -/
def generate_password? (password_length : Nat) (rng : Nat → Nat) : Option String :=
  ((List.range password_length).mapM fun i =>
    (gen_range? 65 90 (rng i)).map Char.ofNat).map fun l => ⟨l⟩

/-- Model of Rust's `str::parse::<usize>`: an optional leading `'+'`, then a
non-empty run of ASCII digits, with failure on overflow past
`usize::MAX = 2^64 - 1` (the target is 64-bit). -/
def parse_usize (s : String) : Option Nat :=
  let cs := match s.data with
    | '+' :: rest => rest
    | cs => cs
  if cs ≠ [] ∧ cs.all (fun c => c.isDigit) then
    let n := cs.foldl (fun acc c => acc * 10 + (c.toNat - 48)) 0
    if n ≤ 2 ^ 64 - 1 then some n else none
  else none

/-- Model of the length computation of `main`:
`std::env::args().nth(1).unwrap_or_else(|| "12".to_string()).parse::<usize>().unwrap_or(12)`.
`arg` is the first positional argument, when present. -/
def main_password_length (arg : Option String) : Nat :=
  (parse_usize (arg.getD "12")).getD 12

/-- Model of what `main` writes to standard output:
`println!("{password}")` prints the generated password and a newline. -/
def main_output (arg : Option String) (rng : Nat → Nat) : String :=
  generate_password (main_password_length arg) rng ++ "\n"

/-- The index selected by one draw when sampling from an alphabet of `L`
characters: the raw draw reduced modulo `L` (the index drawn uniformly from
`[0, alphabet.len())` of the spec's algorithm). -/
def draw_index (L raw : Nat) : Nat := raw % L

/-- The only core-level error of the generalized generator. -/
inductive GenError where
  | InvalidAlphabet
deriving DecidableEq, Repr

/-- Modelled from the spec: the generalized `RandomStringGenerator` core is
absent from the sources (the Rust code hardcodes the alphabet `b'A'..b'Z'`);
this follows the spec's contract: fail with `InvalidAlphabet` on an empty
alphabet (never for `length == 0`, which yields the empty output), otherwise
for each of `length` positions draw one uniformly random index in
`[0, alphabet.len())` and append the corresponding character. -/
def generate_general (alphabet : List Char) (length : Nat) (rng : Nat → Nat) :
    Except GenError (List Char) :=
  if alphabet.length = 0 ∧ 0 < length then .error .InvalidAlphabet
  else .ok ((List.range length).map fun i =>
    alphabet.getD (draw_index alphabet.length (rng i)) 'A')

section Lemmas

/-- Every character produced by one draw of the hardcoded generator lies in
`'A'..='Y'`; in particular it is never `'Z'`. -/
lemma char_of_draw_bounds (raw : Nat) :
    'A' ≤ Char.ofNat (gen_range 65 90 raw) ∧
    Char.ofNat (gen_range 65 90 raw) ≤ 'Y' ∧
    Char.ofNat (gen_range 65 90 raw) ≠ 'Z' := by
  have hm : raw % 25 < 25 := Nat.mod_lt _ (by decide)
  show 'A' ≤ Char.ofNat (65 + raw % 25) ∧ Char.ofNat (65 + raw % 25) ≤ 'Y' ∧
    Char.ofNat (65 + raw % 25) ≠ 'Z'
  interval_cases (raw % 25) <;> decide

/-- Equal probability per index: among any whole number of alphabet-widths
of raw draw values, each index `j < L` is selected by exactly `k` of the
`k * L` raw values, the same count for every index. -/
lemma filter_draw_index_card (L k j : Nat) (hL : 0 < L) (hj : j < L) :
    ((Finset.range (k * L)).filter (fun raw => draw_index L raw = j)).card = k := by
  have himg : (Finset.range (k * L)).filter (fun raw => draw_index L raw = j)
      = (Finset.range k).image (fun m => m * L + j) := by
    ext r
    simp only [Finset.mem_filter, Finset.mem_range, Finset.mem_image, draw_index]
    constructor
    · rintro ⟨hlt, hmod⟩
      refine ⟨r / L, Nat.div_lt_of_lt_mul (by rwa [Nat.mul_comm] at hlt), ?_⟩
      have hdm := Nat.div_add_mod r L
      rw [Nat.mul_comm] at hdm
      rw [hmod] at hdm
      exact hdm
    · rintro ⟨m, hm, rfl⟩
      refine ⟨?_, ?_⟩
      · calc m * L + j < m * L + L := by omega
          _ = (m + 1) * L := by ring
          _ ≤ k * L := Nat.mul_le_mul_right L hm
      · rw [Nat.mul_comm m L, Nat.mul_add_mod]
        exact Nat.mod_eq_of_lt hj
  rw [himg, Finset.card_image_of_injective _ ?_, Finset.card_range]
  intro a b hab
  simp only [] at hab
  have : a * L = b * L := by omega
  exact Nat.eq_of_mul_eq_mul_right hL this

end Lemmas

/-- Claim C1: for every request with a non-empty alphabet and any length
`n` (including `n = 0`), the generator succeeds and returns exactly `n`
characters. -/
theorem generate_general_length (alphabet : List Char) (n : Nat) (rng : Nat → Nat)
    (h : alphabet ≠ []) :
    ∃ out, generate_general alphabet n rng = .ok out ∧ out.length = n := by
  refine ⟨(List.range n).map fun i =>
    alphabet.getD (draw_index alphabet.length (rng i)) 'A', ?_, ?_⟩
  · unfold generate_general
    rw [if_neg]
    rintro ⟨h0, -⟩
    exact h (List.length_eq_zero.mp h0)
  · simp

/-- Witness for C1 at the alphabet `['x']` and length `3`. -/
theorem generate_general_length_witness :
    (['x'] : List Char) ≠ [] ∧
    ∃ out, generate_general ['x'] 3 (fun i => i) = .ok out ∧ out.length = 3 :=
  ⟨by decide, generate_general_length ['x'] 3 (fun i => i) (by decide)⟩

/-- Claim C2: for every valid request (non-empty alphabet, any length) and
every character of the output, that character is an element of the
alphabet. -/
theorem generate_general_mem_alphabet (alphabet : List Char) (n : Nat)
    (rng : Nat → Nat) (out : List Char) (h : alphabet ≠ [])
    (hout : generate_general alphabet n rng = .ok out) :
    ∀ c ∈ out, c ∈ alphabet := by
  have hL : 0 < alphabet.length := List.length_pos.mpr h
  have hcond : ¬(alphabet.length = 0 ∧ 0 < n) := by
    rintro ⟨h0, -⟩; omega
  unfold generate_general at hout
  rw [if_neg hcond] at hout
  cases hout
  intro c hc
  rcases List.mem_map.mp hc with ⟨i, -, rfl⟩
  have hidx : draw_index alphabet.length (rng i) < alphabet.length :=
    Nat.mod_lt _ hL
  rw [List.getD_eq_getElem _ _ hidx]
  exact List.getElem_mem hidx

/-- Witness for C2 at the alphabet `['a', 'b']` and length `2`. -/
theorem generate_general_mem_alphabet_witness :
    (['a', 'b'] : List Char) ≠ [] ∧
    generate_general ['a', 'b'] 2 (fun i => i) = .ok ['a', 'b'] ∧
    ∀ c ∈ ['a', 'b'], c ∈ (['a', 'b'] : List Char) :=
  ⟨by decide, rfl,
    generate_general_mem_alphabet ['a', 'b'] 2 (fun i => i) ['a', 'b']
      (by decide) rfl⟩

/-- Claim C5: the generalized generator fails exactly when the alphabet is
empty and the length is positive, the only error is `InvalidAlphabet`, and a
request with length `0` never fails (it yields the empty output). -/
theorem generate_general_error_iff (alphabet : List Char) (n : Nat)
    (rng : Nat → Nat) :
    ((∃ e, generate_general alphabet n rng = .error e) ↔
      alphabet = [] ∧ 0 < n) ∧
    (∀ e, generate_general alphabet n rng = .error e →
      e = GenError.InvalidAlphabet) ∧
    generate_general alphabet 0 rng = .ok [] := by
  constructor
  · constructor
    · rintro ⟨e, he⟩
      by_cases hc : alphabet.length = 0 ∧ 0 < n
      · exact ⟨List.length_eq_zero.mp hc.1, hc.2⟩
      · unfold generate_general at he
        rw [if_neg hc] at he
        cases he
    · rintro ⟨rfl, hn⟩
      exact ⟨GenError.InvalidAlphabet,
        by unfold generate_general; rw [if_pos ⟨rfl, hn⟩]⟩
  constructor
  · intro e he
    by_cases hc : alphabet.length = 0 ∧ 0 < n
    · unfold generate_general at he
      rw [if_pos hc] at he
    · unfold generate_general at he
      rw [if_neg hc] at he
  · unfold generate_general
    rw [if_neg (by simp)]
    simp

/-- Claim C4: for every requested length and every behaviour of the random
source, every output character of `generate_password` lies in `'A'..='Y'`;
in particular `'Z'` never occurs, because the range `b'A'..b'Z'` excludes
its upper bound. -/
theorem generate_password_excludes_Z (n : Nat) (rng : Nat → Nat) (c : Char)
    (hc : c ∈ (generate_password n rng).data) :
    ('A' ≤ c ∧ c ≤ 'Y') ∧ c ≠ 'Z' := by
  rcases List.mem_map.mp hc with ⟨i, -, rfl⟩
  obtain ⟨h1, h2, h3⟩ := char_of_draw_bounds (rng i)
  exact ⟨⟨h1, h2⟩, h3⟩

/-- Witness for C4 at length `1` and the constant-zero random stream, whose
single output character is `'A'`. -/
theorem generate_password_excludes_Z_witness :
    'A' ∈ (generate_password 1 (fun _ => 0)).data ∧
    (('A' ≤ 'A' ∧ 'A' ≤ 'Y') ∧ 'A' ≠ 'Z') :=
  ⟨by decide, generate_password_excludes_Z 1 (fun _ => 0) 'A' (by decide)⟩

/-- Claim C6: the core never panics: for every length and every behaviour of
the random source, the panic-aware model returns normally, with the value of
the total model. -/
theorem generate_password_no_panic (n : Nat) (rng : Nat → Nat) :
    generate_password? n rng = some (generate_password n rng) := by
  unfold generate_password? generate_password
  have : ∀ l : List Nat,
      (l.mapM fun i => (gen_range? 65 90 (rng i)).map Char.ofNat) =
        some (l.map fun i => Char.ofNat (gen_range 65 90 (rng i))) := by
    intro l
    induction l with
    | nil => rfl
    | cons a l ih =>
      rw [List.mapM_cons, ih]
      simp [gen_range?]
  rw [this]
  rfl

/-- Claim C3: the per-draw index is drawn uniformly over the whole alphabet
and independently across positions: every index below `alphabet.length` is
selected by some raw value of the random source, every index is selected by
equally many raw values out of any whole number of alphabet-widths of them,
and the output character at position `i` is determined by draw `rng i`
alone (`alphabet[rng i % alphabet.length]`, independent of every other
position's draw). -/
theorem generate_general_uniform_independent (alphabet : List Char) (n : Nat)
    (rng : Nat → Nat) (i : Nat) (hne : alphabet ≠ []) (hi : i < n) :
    (∀ j < alphabet.length, ∃ raw, draw_index alphabet.length raw = j) ∧
    (∀ k j, j < alphabet.length →
      ((Finset.range (k * alphabet.length)).filter
        (fun raw => draw_index alphabet.length raw = j)).card = k) ∧
    (∃ out, generate_general alphabet n rng = .ok out ∧
      out[i]? = some (alphabet.getD (draw_index alphabet.length (rng i)) 'A')) := by
  have hL : 0 < alphabet.length := List.length_pos.mpr hne
  refine ⟨?_, ?_, ?_⟩
  · intro j hj
    exact ⟨j, Nat.mod_eq_of_lt hj⟩
  · intro k j hj
    exact filter_draw_index_card alphabet.length k j hL hj
  · refine ⟨(List.range n).map fun p =>
      alphabet.getD (draw_index alphabet.length (rng p)) 'A', ?_, ?_⟩
    · unfold generate_general
      rw [if_neg (by rintro ⟨h0, -⟩; omega)]
    · rw [List.getElem?_map, List.getElem?_range hi]
      rfl

/-- Witness for C3 at the alphabet `['a', 'b']`, length `1`, the identity
random stream and position `0`. -/
theorem generate_general_uniform_independent_witness :
    (['a', 'b'] : List Char) ≠ [] ∧ (0 : Nat) < 1 ∧
    ((∀ j < (['a', 'b'] : List Char).length,
        ∃ raw, draw_index (['a', 'b'] : List Char).length raw = j) ∧
     (∀ k j, j < (['a', 'b'] : List Char).length →
        ((Finset.range (k * (['a', 'b'] : List Char).length)).filter
          (fun raw => draw_index (['a', 'b'] : List Char).length raw = j)).card = k) ∧
     (∃ out, generate_general ['a', 'b'] 1 (fun r => r) = .ok out ∧
        out[0]? = some ((['a', 'b'] : List Char).getD
          (draw_index (['a', 'b'] : List Char).length ((fun r => r) 0)) 'A'))) :=
  ⟨by decide, by decide,
    generate_general_uniform_independent ['a', 'b'] 1 (fun r => r) 0
      (by decide) (by decide)⟩

/-- Claim C7: the CLI length is `12` whenever the positional argument is
missing or fails to parse as a `usize`. -/
theorem main_password_length_default (arg : Option String)
    (h : ∀ s, arg = some s → parse_usize s = none) :
    main_password_length arg = 12 := by
  cases arg with
  | none => rfl
  | some s =>
    have hs := h s rfl
    simp [main_password_length, hs]

/-- Witness for C7 at the unparsable argument `"abc"`. -/
theorem main_password_length_default_witness :
    parse_usize "abc" = none ∧ main_password_length (some "abc") = 12 :=
  ⟨rfl, main_password_length_default (some "abc") (fun s hs => by cases hs; rfl)⟩

/-- Claim C8: generation always terminates after consuming exactly one draw
per position: the output has length `n` and depends only on the first `n`
draws of the random source, so the loop over positions is bounded by the
requested length. -/
theorem generate_password_bounded_draws (n : Nat) (rng rng' : Nat → Nat)
    (h : ∀ i < n, rng i = rng' i) :
    generate_password n rng = generate_password n rng' ∧
    (generate_password n rng).length = n := by
  constructor
  · unfold generate_password
    congr 1
    apply List.map_congr_left
    intro i hi
    rw [h i (List.mem_range.mp hi)]
  · simp [generate_password, String.length]

/-- Witness for C8 at length `2` with two streams agreeing on the first two
draws only. -/
theorem generate_password_bounded_draws_witness :
    generate_password 2 (fun i => i) =
      generate_password 2 (fun i => if i < 2 then i else 5) ∧
    (generate_password 2 (fun i => i)).length = 2 :=
  generate_password_bounded_draws 2 (fun i => i) (fun i => if i < 2 then i else 5)
    (fun _ hi => (if_pos hi).symm)

/-- Claim C9: determinism of shape, non-determinism of content: two calls
with the same requested length but arbitrary random streams produce outputs
of identical length, while the character contents can differ (witnessed by
two concrete streams yielding different one-character outputs). -/
theorem generate_password_shape_deterministic (n : Nat) (rngA rngB : Nat → Nat) :
    (generate_password n rngA).length = (generate_password n rngB).length ∧
    generate_password 1 (fun _ => 0) ≠ generate_password 1 (fun _ => 1) := by
  constructor
  · simp [generate_password, String.length]
  · decide

/-- Claim C10: a parsable argument `"0"` is honoured rather than defaulted:
it parses as the usize `0`, the length passed to the core is `0`, and the
program prints just a newline. -/
theorem main_zero_length_honoured (rng : Nat → Nat) :
    parse_usize "0" = some 0 ∧
    main_password_length (some "0") = 0 ∧
    main_output (some "0") rng = "\n" :=
  ⟨rfl, rfl, rfl⟩
